import Mathlib

/-!
A shallow embedding of `src/docker/purge-docker-images.py` and proofs about
its keep-set resolver, classification filter, size estimator and purge
executor.

Modelling conventions:
* Python values that the script only ever tests for truthiness are modelled
  by `PyVal` (a bool or a string) together with `truthy`; optional pattern
  strings coming from `argparse` are `Option String` with the truthiness
  test `optStrTruthy` (`None` and `""` are falsy).
* Regular-expression matching (`re.compile(pattern).match(input)`) is kept
  abstract: every function that matches patterns takes a matcher
  `rmatch : String → String → Bool` (pattern first, then input) as an
  explicit argument.
* Python `set` objects are modelled as duplicate-free lists built with
  `addTag` / `addImage` (insert-if-absent); only membership matters
  downstream, exactly as in the script.
* A spawned subprocess is a `Subproc` record carrying its eventual exit
  code, whether the child had already terminated at the moment the single
  `p.poll()` call ran, and its raw output lines (each raw line ends with a
  newline except possibly the last one, and is never empty, as produced by
  `readlines`).
* Numeric image sizes are modelled as exact natural numbers; the script
  accumulates them into a Python float starting from `0.`, which is exact
  addition for integer byte counts below 2^53.
-/

/-- A Python value as used by the script where only truthiness matters:
either an actual bool (e.g. the `argparse` default `True`) or a string
supplied on the command line. -/
inductive PyVal where
  | pybool (b : Bool)
  | pystr (s : String)
deriving DecidableEq, Repr

/-- Python truthiness for `PyVal`: a bool is itself, a string is truthy
iff non-empty. -/
def truthy : PyVal → Bool
  | .pybool b => b
  | .pystr s => !(s == "")

/-- Python truthiness of an optional pattern string (`argparse` leaves the
field `None` when the flag is absent): `None` and `""` are falsy. -/
def optStrTruthy : Option String → Bool
  | none => false
  | some s => !(s == "")

deriving instance DecidableEq for Except

/-- Model of `_clean_line`: strip one trailing newline (`if line[-1] == "\n": line =
line[:-1]`, i.e. drop the last character when it is a newline).  Raw lines
from `readlines` are never empty, so the model's behaviour on `""`
(returning `""`) is never exercised. -/
def clean_line (line : String) : String :=
  if line.data.getLast? = some (Char.ofNat 10) then String.mk line.data.dropLast
  else line

/-- A spawned subprocess.  `exitedAtPoll` records whether the child had
already terminated when the script's single `p.poll()` call (made
immediately after `Popen`, before reading any output) ran; `exitCode` is the
child's eventual exit status; `rawStdout` / `rawStderr` are the raw lines
`readlines` returns. -/
structure Subproc where
  exitedAtPoll : Bool
  exitCode : Int
  rawStdout : List String
  rawStderr : List String
deriving DecidableEq, Repr

/-- The value of `p.returncode` after the single `p.poll()` call:
`poll()` only stores the exit status if the child has already terminated,
otherwise `returncode` stays `None`.  Reading the pipes afterwards does not
update it. -/
def returncode_after_poll (p : Subproc) : Option Int :=
  if p.exitedAtPoll then some p.exitCode else none

/-- Python truthiness of `p.returncode` (`None` and `0` are falsy). -/
def optIntTruthy : Option Int → Bool
  | none => false
  | some n => !(n == 0)

/-- Model of `_handle_subprocess`: spawn, `poll()` once, read and clean both pipes,
then raise (`error ()` here) iff `p.returncode` is truthy; otherwise return
the returncode and the cleaned stdout/stderr lines. -/
def handle_subprocess (p : Subproc) :
    Except Unit (Option Int × List String × List String) :=
  if optIntTruthy (returncode_after_poll p) then Except.error ()
  else Except.ok (returncode_after_poll p,
    p.rawStdout.map clean_line, p.rawStderr.map clean_line)

/-- Model of `_check_matches_pattern(input, pattern)`:
`re.compile(pattern).match(input) is not None`, with the regex engine
abstracted as `rmatch pattern input`. -/
def check_matches_pattern (rmatch : String → String → Bool)
    (input pattern : String) : Bool :=
  rmatch pattern input

/-- A local docker image as the script sees it: `attrs["RepoTags"]`,
`attrs["Id"]`, and `attrs["Size"]` (`none` when the size metadata is
missing, in which case the Python dictionary lookup raises `KeyError`). -/
structure Image where
  repoTags : List String
  id : String
  size : Option Nat
deriving DecidableEq, Repr

/-- The script's `Args` object holding the parsed command line. -/
structure Args where
  repo_location : String
  list_images_cmd : String
  keep_from_branches : String
  keep_image_pattern : Option String
  only_image_pattern : Option String
  always_remove_pattern : Option String
  remove_dangling : PyVal
deriving Repr

/-- Insert-if-absent for the script's `set()` of tag strings. -/
def addTag (t : String) (l : List String) : List String :=
  if t ∈ l then l else l ++ [t]

/-- Insert-if-absent for the script's `set()` of image objects. -/
def addImage (i : Image) (l : List Image) : List Image :=
  if i ∈ l then l else l ++ [i]

/-- The body of the per-tag loop of `filter_images`, as a decision: `true`
means this iteration executes `tags_to_remove.add(repo_tag)` and
`images_to_remove.add(image)`, `false` means it reaches a `continue` (or
falls off the end) without adding anything.  The four guards appear in
source order; each `continue` corresponds to returning here. -/
def tagAction (rmatch : String → String → Bool) (args : Args)
    (images_to_keep : List String) (repo_tag : String) : Bool :=
  if optStrTruthy args.keep_image_pattern &&
      check_matches_pattern rmatch repo_tag (args.keep_image_pattern.getD "") then
    false
  else if optStrTruthy args.always_remove_pattern &&
      check_matches_pattern rmatch repo_tag (args.always_remove_pattern.getD "") then
    true
  else if optStrTruthy args.only_image_pattern &&
      !check_matches_pattern rmatch repo_tag (args.only_image_pattern.getD "") then
    false
  else
    decide (repo_tag ∉ images_to_keep)

/-- One per-tag step of `filter_images`' inner loop over `repo_tags`. -/
def tagStep (rmatch : String → String → Bool) (args : Args)
    (images_to_keep : List String) (image : Image)
    (acc : List String × List Image) (repo_tag : String) :
    List String × List Image :=
  if tagAction rmatch args images_to_keep repo_tag then
    (addTag repo_tag acc.1, addImage image acc.2)
  else acc

/-- One per-image step of `filter_images`' outer loop: dangling images
(`if not repo_tags`) are handled by the `remove_dangling` policy and
`continue`; tagged images run the per-tag loop. -/
def imageStep (rmatch : String → String → Bool) (args : Args)
    (images_to_keep : List String)
    (acc : List String × List Image) (image : Image) :
    List String × List Image :=
  if image.repoTags = [] then
    if truthy args.remove_dangling then
      (addTag image.id acc.1, addImage image acc.2)
    else acc
  else
    image.repoTags.foldl (tagStep rmatch args images_to_keep image) acc

/-- Model of `filter_images(images_found, images_to_keep, args)`: returns the pair
`(tags_to_remove, images_to_remove)`. -/
def filter_images (rmatch : String → String → Bool) (images_found : List Image)
    (images_to_keep : List String) (args : Args) :
    List String × List Image :=
  images_found.foldl (imageStep rmatch args images_to_keep) ([], [])

/-- One iteration of `estimate_total_size`: `total_size_bytes +=
image.attrs["Size"]`; a missing `"Size"` key raises `KeyError` (modelled as
`Except.error ()`), and a raised exception propagates past the remaining
iterations. -/
def sizeStep (acc : Except Unit Nat) (image : Image) : Except Unit Nat :=
  match acc, image.size with
  | Except.error e, _ => Except.error e
  | Except.ok n, some s => Except.ok (n + s)
  | Except.ok _, none => Except.error ()

/-- Model of `estimate_total_size(images)`: folds `total_size_bytes +=
image.attrs["Size"]` over the list starting from `0`. -/
def estimate_total_size (images : List Image) : Except Unit Nat :=
  images.foldl sizeStep (Except.ok 0)

/-- The `argparse` handling of `--remove-dangling`: when the flag is absent the
default (the Python bool `True`) is used; when a value is supplied on the
command line it is stored as that string. -/
def parse_remove_dangling (supplied : Option String) : PyVal :=
  match supplied with
  | none => PyVal.pybool true
  | some s => PyVal.pystr s

/-- An observable side effect of one run of `main`: a `git checkout`,
running the discovery command on a branch, one `client.images.remove`
attempt with its logged outcome, or the final `client.images.prune`. -/
inductive Act where
  | checkout (branch : String)
  | discover (branch : String)
  | attemptRemove (tag : String)
  | logRemoved (tag : String)
  | logRemoveFailed (tag : String)
  | prune
deriving DecidableEq, Repr

/-- The external world one run of `main` interacts with: the `git diff
HEAD` subprocess, the `git checkout` subprocess per branch, the discovery
command subprocess per branch (its output depends on which branch is
checked out), and which `client.images.remove(tag)` calls raise. -/
structure World where
  diffProc : Subproc
  checkoutProc : String → Subproc
  discoverProc : String → Subproc
  removeFails : String → Bool

/-- Helper for `py_split`: split a character list at every occurrence of
the separator, keeping empty pieces, exactly as Python's `str.split(sep)`
does for a one-character separator. -/
def splitCharList (sep : Char) : List Char → List (List Char)
  | [] => [[]]
  | c :: cs =>
    match splitCharList sep cs with
    | [] => [[]]
    | w :: ws => if c = sep then [] :: w :: ws else (c :: w) :: ws

/-- Python's `s.split(sep)` for a one-character separator, as used by
`args.keep_from_branches.split(",")`. -/
def py_split (s : String) (sep : Char) : List String :=
  (splitCharList sep s.data).map String.mk

/-- Outcome of one run of `main`: a normal return (`exit(main(sys.argv))`
turns `None` into status 0 and `1` into status 1) or an uncaught exception,
together with the external actions performed up to that point. -/
inductive RunResult where
  | exited (code : Int) (actions : List Act)
  | crashed (actions : List Act)
deriving DecidableEq, Repr

/-- Model of `git_check_dirty`: run `git diff HEAD` through `_handle_subprocess` and
report dirty iff the captured stdout or stderr line list is truthy
(non-empty); `none` when `_handle_subprocess` raises. -/
def git_check_dirty (w : World) : Option Bool :=
  match handle_subprocess w.diffProc with
  | Except.error _ => none
  | Except.ok (_, stdout, stderr) => some (!stdout.isEmpty || !stderr.isEmpty)

/-- Model of `read_images_to_keep(cmd)`: run the discovery command through
`_handle_subprocess` and collect every cleaned stdout line into a set. -/
def read_images_to_keep (p : Subproc) : Except Unit (List String) :=
  match handle_subprocess p with
  | Except.error e => Except.error e
  | Except.ok (_, stdout, _) =>
      Except.ok (stdout.foldl (fun s line => addTag line s) [])

/-- The keep-set loop of `main`: for each branch in order, `git checkout`
it (an uncaught exception aborts the run) and merge
`read_images_to_keep(args.list_images_cmd)` into `tags_to_keep`.  Returns
either the aborted run or the accumulated keep-set plus the action trace so
far. -/
def keep_set_loop (w : World) :
    List String → List String → List Act →
    RunResult ⊕ (List String × List Act)
  | [], tags_to_keep, tr => Sum.inr (tags_to_keep, tr)
  | branch :: rest, tags_to_keep, tr =>
    match handle_subprocess (w.checkoutProc branch) with
    | Except.error _ => Sum.inl (RunResult.crashed (tr ++ [Act.checkout branch]))
    | Except.ok _ =>
      match read_images_to_keep (w.discoverProc branch) with
      | Except.error _ =>
          Sum.inl (RunResult.crashed
            (tr ++ [Act.checkout branch, Act.discover branch]))
      | Except.ok found =>
          keep_set_loop w rest
            (found.foldl (fun acc t => addTag t acc) tags_to_keep)
            (tr ++ [Act.checkout branch, Act.discover branch])

/-- Model of `remove_images_by_tags(tags_to_remove)`: attempt
`client.images.remove(tag)` for every tag in order; a raised exception is
caught, logged and skipped, success is logged. -/
def remove_images_by_tags (removeFails : String → Bool)
    (tags_to_remove : List String) : List Act :=
  (tags_to_remove.map (fun tag =>
    [Act.attemptRemove tag] ++
      (if removeFails tag then [Act.logRemoveFailed tag]
       else [Act.logRemoved tag]))).flatten

/-- Model of `main`, after argument parsing and `os.chdir`: the dirty check, the
keep-set loop over `args.keep_from_branches.split(",")`, `filter_images`,
`estimate_total_size` (whose `KeyError` would be uncaught), the blocking
confirmation prompt (modelled as the operator pressing Enter), the removal
loop, and the final `client.images.prune()`. -/
def mainModel (rmatch : String → String → Bool) (w : World)
    (all_images : List Image) (args : Args) : RunResult :=
  match git_check_dirty w with
  | none => RunResult.crashed []
  | some true => RunResult.exited 1 []
  | some false =>
    match keep_set_loop w (py_split args.keep_from_branches (Char.ofNat 44)) [] [] with
    | Sum.inl r => r
    | Sum.inr (tags_to_keep, tr) =>
      match estimate_total_size (filter_images rmatch all_images tags_to_keep args).2 with
      | Except.error _ => RunResult.crashed tr
      | Except.ok _ =>
          RunResult.exited 0
            (tr ++ remove_images_by_tags w.removeFails
              (filter_images rmatch all_images tags_to_keep args).1 ++ [Act.prune])

/-- Decision of the spec's five-rule per-tag cascade. -/
inductive SpecDecision where
  | keep
  | remove
deriving DecidableEq, Repr

/-- The per-tag decision exactly as the specification words it, rule by
rule in priority order: (1) `keep_pattern` configured and matching keeps;
(2) `always_remove_pattern` configured and matching removes; (3)
`only_pattern` configured and not matching keeps (skips); (4) not a member
of the keep-set removes; (5) otherwise keep.  A pattern is "configured"
when a non-empty pattern string was supplied for it. -/
def specTagDecision (rmatch : String → String → Bool) (args : Args)
    (keepSet : List String) (tag : String) : SpecDecision :=
  if optStrTruthy args.keep_image_pattern = true ∧
      check_matches_pattern rmatch tag (args.keep_image_pattern.getD "") = true then
    SpecDecision.keep
  else if optStrTruthy args.always_remove_pattern = true ∧
      check_matches_pattern rmatch tag (args.always_remove_pattern.getD "") = true then
    SpecDecision.remove
  else if optStrTruthy args.only_image_pattern = true ∧
      check_matches_pattern rmatch tag (args.only_image_pattern.getD "") = false then
    SpecDecision.keep
  else if tag ∉ keepSet then
    SpecDecision.remove
  else
    SpecDecision.keep

/-- The keep-set as the specification words it: the deduplicated union,
over all configured branches in order, of the non-empty cleaned
standard-output lines of the discovery command run on each branch. -/
def spec_keep_set (branches : List String)
    (discoverProc : String → Subproc) : List String :=
  branches.foldl
    (fun acc branch =>
      ((((discoverProc branch).rawStdout.map clean_line).filter
          (fun line => !(line == ""))).foldl
        (fun s t => addTag t s) acc))
    []

/-- A small concrete matcher standing in for the regex engine in concrete
evaluations: pattern `"keep-"` matches exactly the input `"keep-1"` and
pattern `"tmp-"` matches exactly the input `"tmp-1"`. -/
def rmatchW : String → String → Bool := fun pat input =>
  (pat == "keep-" && (input == "keep-1")) ||
  (pat == "tmp-" && (input == "tmp-1"))

/-- A concrete tagged image for evaluations. -/
def imgTagged : Image := { repoTags := ["keep-1", "tmp-1"], id := "sha256:aaa", size := some 100 }

/-- A concrete dangling image for evaluations. -/
def imgDangling : Image := { repoTags := [], id := "sha256:ddd", size := some 5 }

/-- A concrete parsed command line for evaluations. -/
def argsW : Args :=
  { repo_location := "/repo", list_images_cmd := "cmd", keep_from_branches := "main",
    keep_image_pattern := some "keep-", only_image_pattern := none,
    always_remove_pattern := some "tmp-", remove_dangling := PyVal.pybool true }

/-- A concrete image whose `attrs` lack the `"Size"` key. -/
def imgNoSize : Image := { repoTags := ["lost:1"], id := "sha256:eee", size := none }

/-- A subprocess that has already exited with status 0 at the `poll()`
call and printed the given raw lines on stdout. -/
def okProc (out : List String) : Subproc :=
  { exitedAtPoll := true, exitCode := 0, rawStdout := out, rawStderr := [] }

/-- A world whose discovery command prints a single empty line (the raw
line `"\n"`) on every branch; everything succeeds. -/
def c2World : World :=
  { diffProc := okProc [], checkoutProc := fun _ => okProc [],
    discoverProc := fun _ => okProc ["\n"], removeFails := fun _ => false }

/-- A world with two branches whose discovery outputs overlap: `"dev"`
prints `a` and `b`, every other branch prints only `a`. -/
def c2WorldW : World :=
  { diffProc := okProc [], checkoutProc := fun _ => okProc [],
    discoverProc := fun b => if b == "dev" then okProc ["a\n", "b"] else okProc ["a\n"],
    removeFails := fun _ => false }

/-- A `git checkout` (or discovery) child that eventually exits with
status 1 after printing to stderr, but that had not yet terminated when the
script's single `poll()` call ran. -/
def c3Proc : Subproc :=
  { exitedAtPoll := false, exitCode := 1, rawStdout := [],
    rawStderr := ["error: pathspec did not match any file known to git\n"] }

/-- A world whose `git diff HEAD` prints a diff line: a dirty working
tree. -/
def c7World : World :=
  { diffProc := okProc ["diff --git a/f b/f\n"], checkoutProc := fun _ => okProc [],
    discoverProc := fun _ => okProc [], removeFails := fun _ => false }

/-- A clean world whose discovery command keeps `keep-1` and whose image
store refuses to delete `tmp-1`. -/
def c9World : World :=
  { diffProc := okProc [], checkoutProc := fun _ => okProc [],
    discoverProc := fun _ => okProc ["keep-1\n"],
    removeFails := fun t => t == "tmp-1" }

/-! ### Membership lemmas for the set model -/

theorem mem_addTag_iff (x t : String) (l : List String) :
    x ∈ addTag t l ↔ x = t ∨ x ∈ l := by
  unfold addTag
  by_cases h : t ∈ l
  · simp only [h, if_true]
    exact ⟨fun hx => Or.inr hx, fun hx => hx.elim (fun e => e ▸ h) id⟩
  · simp only [h, if_false, List.mem_append, List.mem_singleton]
    tauto

theorem mem_addTag_self (t : String) (l : List String) : t ∈ addTag t l :=
  (mem_addTag_iff t t l).mpr (Or.inl rfl)

theorem mem_addTag_of_mem {x : String} {l : List String} (t : String)
    (h : x ∈ l) : x ∈ addTag t l :=
  (mem_addTag_iff x t l).mpr (Or.inr h)

theorem mem_addImage_iff (x i : Image) (l : List Image) :
    x ∈ addImage i l ↔ x = i ∨ x ∈ l := by
  unfold addImage
  by_cases h : i ∈ l
  · simp only [h, if_true]
    exact ⟨fun hx => Or.inr hx, fun hx => hx.elim (fun e => e ▸ h) id⟩
  · simp only [h, if_false, List.mem_append, List.mem_singleton]
    tauto

theorem mem_addImage_self (i : Image) (l : List Image) : i ∈ addImage i l :=
  (mem_addImage_iff i i l).mpr (Or.inl rfl)

theorem mem_addImage_of_mem {x : Image} {l : List Image} (i : Image)
    (h : x ∈ l) : x ∈ addImage i l :=
  (mem_addImage_iff x i l).mpr (Or.inr h)

/-! ### The inner (per-tag) fold of `filter_images` -/

theorem tagStep_foldl_mono (rmatch : String → String → Bool) (args : Args)
    (keep : List String) (image : Image) (tags : List String)
    (acc : List String × List Image) (x : String) (y : Image)
    (hx : x ∈ acc.1) (hy : y ∈ acc.2) :
    x ∈ (tags.foldl (tagStep rmatch args keep image) acc).1 ∧
    y ∈ (tags.foldl (tagStep rmatch args keep image) acc).2 := by
  induction tags generalizing acc with
  | nil => exact ⟨hx, hy⟩
  | cons t ts ih =>
    simp only [List.foldl_cons]
    apply ih
    · unfold tagStep
      by_cases h : tagAction rmatch args keep t
      · simp only [h, if_true]
        exact mem_addTag_of_mem t hx
      · simp only [h, if_false]
        exact hx
    · unfold tagStep
      by_cases h : tagAction rmatch args keep t
      · simp only [h, if_true]
        exact mem_addImage_of_mem image hy
      · simp only [h, if_false]
        exact hy

theorem tagStep_foldl_fires (rmatch : String → String → Bool) (args : Args)
    (keep : List String) (image : Image) (tags : List String)
    (acc : List String × List Image) (tag : String)
    (ht : tag ∈ tags) (ha : tagAction rmatch args keep tag = true) :
    tag ∈ (tags.foldl (tagStep rmatch args keep image) acc).1 ∧
    image ∈ (tags.foldl (tagStep rmatch args keep image) acc).2 := by
  induction tags generalizing acc with
  | nil => cases ht
  | cons t ts ih =>
    simp only [List.foldl_cons]
    rcases List.mem_cons.mp ht with he | hm
    · subst he
      rcases Decidable.em (tag ∈ ts) with hts | hts
      · exact ih _ hts
      · apply tagStep_foldl_mono
        · unfold tagStep
          simp only [ha, if_true]
          exact mem_addTag_self tag acc.1
        · unfold tagStep
          simp only [ha, if_true]
          exact mem_addImage_self image acc.2
    · exact ih _ hm

theorem tagStep_foldl_mem_fst (rmatch : String → String → Bool) (args : Args)
    (keep : List String) (image : Image) (tags : List String)
    (acc : List String × List Image) (x : String)
    (hx : x ∈ (tags.foldl (tagStep rmatch args keep image) acc).1) :
    x ∈ acc.1 ∨ (x ∈ tags ∧ tagAction rmatch args keep x = true) := by
  induction tags generalizing acc with
  | nil => exact Or.inl hx
  | cons t ts ih =>
    simp only [List.foldl_cons] at hx
    rcases ih _ hx with hin | ⟨hts, hact⟩
    · unfold tagStep at hin
      by_cases h : tagAction rmatch args keep t
      · simp only [h, if_true] at hin
        rcases (mem_addTag_iff x t acc.1).mp hin with he | hold
        · subst he
          exact Or.inr ⟨List.mem_cons_self _ _, h⟩
        · exact Or.inl hold
      · simp only [h, if_false] at hin
        exact Or.inl hin
    · exact Or.inr ⟨List.mem_cons_of_mem _ hts, hact⟩

theorem tagStep_foldl_mem_snd (rmatch : String → String → Bool) (args : Args)
    (keep : List String) (image : Image) (tags : List String)
    (acc : List String × List Image) (y : Image)
    (hy : y ∈ (tags.foldl (tagStep rmatch args keep image) acc).2) :
    y ∈ acc.2 ∨ (y = image ∧ ∃ t ∈ tags, tagAction rmatch args keep t = true) := by
  induction tags generalizing acc with
  | nil => exact Or.inl hy
  | cons t ts ih =>
    simp only [List.foldl_cons] at hy
    rcases ih _ hy with hin | ⟨he, t', ht', hact⟩
    · unfold tagStep at hin
      by_cases h : tagAction rmatch args keep t
      · simp only [h, if_true] at hin
        rcases (mem_addImage_iff y image acc.2).mp hin with he | hold
        · exact Or.inr ⟨he, t, List.mem_cons_self _ _, h⟩
        · exact Or.inl hold
      · simp only [h, if_false] at hin
        exact Or.inl hin
    · exact Or.inr ⟨he, t', List.mem_cons_of_mem _ ht', hact⟩

/-! ### The outer (per-image) fold of `filter_images` -/

theorem imageStep_foldl_mono (rmatch : String → String → Bool) (args : Args)
    (keep : List String) (images : List Image)
    (acc : List String × List Image) (x : String) (y : Image)
    (hx : x ∈ acc.1) (hy : y ∈ acc.2) :
    x ∈ (images.foldl (imageStep rmatch args keep) acc).1 ∧
    y ∈ (images.foldl (imageStep rmatch args keep) acc).2 := by
  induction images generalizing acc with
  | nil => exact ⟨hx, hy⟩
  | cons i is ih =>
    simp only [List.foldl_cons]
    have hstep : x ∈ (imageStep rmatch args keep acc i).1 ∧
        y ∈ (imageStep rmatch args keep acc i).2 := by
      unfold imageStep
      by_cases hd : i.repoTags = []
      · by_cases hr : truthy args.remove_dangling
        · simp only [hd, hr, if_true]
          exact ⟨mem_addTag_of_mem i.id hx, mem_addImage_of_mem i hy⟩
        · simp only [hd, hr, if_true, if_false]
          exact ⟨hx, hy⟩
      · simp only [hd, if_false]
        exact tagStep_foldl_mono rmatch args keep i i.repoTags acc x y hx hy
    exact ih _ hstep.1 hstep.2

theorem filter_foldl_tag_fires (rmatch : String → String → Bool) (args : Args)
    (keep : List String) (images : List Image)
    (acc : List String × List Image) (image : Image) (tag : String)
    (h1 : image ∈ images) (h2 : tag ∈ image.repoTags)
    (ha : tagAction rmatch args keep tag = true) :
    tag ∈ (images.foldl (imageStep rmatch args keep) acc).1 ∧
    image ∈ (images.foldl (imageStep rmatch args keep) acc).2 := by
  induction images generalizing acc with
  | nil => cases h1
  | cons i is ih =>
    simp only [List.foldl_cons]
    rcases List.mem_cons.mp h1 with he | hm
    · subst he
      rcases Decidable.em (image ∈ is) with his | his
      · exact ih _ his
      · have hstep : tag ∈ (imageStep rmatch args keep acc image).1 ∧
            image ∈ (imageStep rmatch args keep acc image).2 := by
          unfold imageStep
          have hd : ¬image.repoTags = [] := List.ne_nil_of_mem h2
          simp only [hd, if_false]
          exact tagStep_foldl_fires rmatch args keep image image.repoTags acc tag h2 ha
        exact imageStep_foldl_mono rmatch args keep is _ tag image hstep.1 hstep.2
    · exact ih _ hm

theorem filter_foldl_dangling_fires (rmatch : String → String → Bool) (args : Args)
    (keep : List String) (images : List Image)
    (acc : List String × List Image) (image : Image)
    (h1 : image ∈ images) (hd : image.repoTags = [])
    (hr : truthy args.remove_dangling = true) :
    image.id ∈ (images.foldl (imageStep rmatch args keep) acc).1 ∧
    image ∈ (images.foldl (imageStep rmatch args keep) acc).2 := by
  induction images generalizing acc with
  | nil => cases h1
  | cons i is ih =>
    simp only [List.foldl_cons]
    rcases List.mem_cons.mp h1 with he | hm
    · subst he
      have hstep : image.id ∈ (imageStep rmatch args keep acc image).1 ∧
          image ∈ (imageStep rmatch args keep acc image).2 := by
        unfold imageStep
        simp only [hd, hr, if_true]
        exact ⟨mem_addTag_self image.id acc.1, mem_addImage_self image acc.2⟩
      exact imageStep_foldl_mono rmatch args keep is _ image.id image hstep.1 hstep.2
    · exact ih _ hm

theorem filter_foldl_mem_fst (rmatch : String → String → Bool) (args : Args)
    (keep : List String) (images : List Image)
    (acc : List String × List Image) (x : String)
    (hx : x ∈ (images.foldl (imageStep rmatch args keep) acc).1) :
    x ∈ acc.1 ∨ ∃ img ∈ images,
      (img.repoTags = [] ∧ truthy args.remove_dangling = true ∧ img.id = x) ∨
      (x ∈ img.repoTags ∧ tagAction rmatch args keep x = true) := by
  induction images generalizing acc with
  | nil => exact Or.inl hx
  | cons i is ih =>
    simp only [List.foldl_cons] at hx
    rcases ih _ hx with hin | ⟨img, him, hcase⟩
    · unfold imageStep at hin
      by_cases hd : i.repoTags = []
      · by_cases hr : truthy args.remove_dangling
        · simp only [hd, hr, if_true] at hin
          rcases (mem_addTag_iff x i.id acc.1).mp hin with he | hold
          · exact Or.inr ⟨i, List.mem_cons_self _ _, Or.inl ⟨hd, hr, he.symm⟩⟩
          · exact Or.inl hold
        · simp only [hd, hr, if_true, if_false] at hin
          exact Or.inl hin
      · simp only [hd, if_false] at hin
        rcases tagStep_foldl_mem_fst rmatch args keep i i.repoTags acc x hin with
          hold | ⟨htag, hact⟩
        · exact Or.inl hold
        · exact Or.inr ⟨i, List.mem_cons_self _ _, Or.inr ⟨htag, hact⟩⟩
    · exact Or.inr ⟨img, List.mem_cons_of_mem _ him, hcase⟩

theorem filter_foldl_mem_snd (rmatch : String → String → Bool) (args : Args)
    (keep : List String) (images : List Image)
    (acc : List String × List Image) (y : Image)
    (hy : y ∈ (images.foldl (imageStep rmatch args keep) acc).2) :
    y ∈ acc.2 ∨ (y ∈ images ∧
      ((y.repoTags = [] ∧ truthy args.remove_dangling = true) ∨
       ∃ t ∈ y.repoTags, tagAction rmatch args keep t = true)) := by
  induction images generalizing acc with
  | nil => exact Or.inl hy
  | cons i is ih =>
    simp only [List.foldl_cons] at hy
    rcases ih _ hy with hin | ⟨him, hcase⟩
    · unfold imageStep at hin
      by_cases hd : i.repoTags = []
      · by_cases hr : truthy args.remove_dangling
        · simp only [hd, hr, if_true] at hin
          rcases (mem_addImage_iff y i acc.2).mp hin with he | hold
          · subst he
            exact Or.inr ⟨List.mem_cons_self _ _, Or.inl ⟨hd, hr⟩⟩
          · exact Or.inl hold
        · simp only [hd, hr, if_true, if_false] at hin
          exact Or.inl hin
      · simp only [hd, if_false] at hin
        rcases tagStep_foldl_mem_snd rmatch args keep i i.repoTags acc y hin with
          hold | ⟨he, t, ht, hact⟩
        · exact Or.inl hold
        · subst he
          exact Or.inr ⟨List.mem_cons_self _ _, Or.inr ⟨t, ht, hact⟩⟩
    · exact Or.inr ⟨List.mem_cons_of_mem _ him, hcase⟩

/-! ### Claim theorems about the classification filter -/

/-- C1: for every tagged image and every one of its tags, the per-tag
decision taken by `filter_images` is exactly the spec's five-rule cascade
in strict priority order (first matching rule wins), and a tag the cascade
removes lands, together with its image, in the removal sets. -/
theorem purge_c1_rule_cascade (rmatch : String → String → Bool) (args : Args)
    (keep : List String) (tag : String) (images : List Image) (image : Image)
    (h1 : image ∈ images) (h2 : tag ∈ image.repoTags) :
    (tagAction rmatch args keep tag = true ↔
      specTagDecision rmatch args keep tag = SpecDecision.remove) ∧
    (specTagDecision rmatch args keep tag = SpecDecision.remove →
      tag ∈ (filter_images rmatch images keep args).1 ∧
      image ∈ (filter_images rmatch images keep args).2) := by
  have hiff : tagAction rmatch args keep tag = true ↔
      specTagDecision rmatch args keep tag = SpecDecision.remove := by
    unfold tagAction specTagDecision
    by_cases A : optStrTruthy args.keep_image_pattern = true <;>
    by_cases B : check_matches_pattern rmatch tag (args.keep_image_pattern.getD "") = true <;>
    by_cases C : optStrTruthy args.always_remove_pattern = true <;>
    by_cases D : check_matches_pattern rmatch tag (args.always_remove_pattern.getD "") = true <;>
    by_cases E : optStrTruthy args.only_image_pattern = true <;>
    by_cases F : check_matches_pattern rmatch tag (args.only_image_pattern.getD "") = true <;>
    by_cases G : tag ∈ keep <;>
    simp [A, B, C, D, E, F, G]
  refine ⟨hiff, fun hrem => ?_⟩
  have ha : tagAction rmatch args keep tag = true := hiff.mpr hrem
  unfold filter_images
  exact filter_foldl_tag_fires rmatch args keep images ([], []) image tag h1 h2 ha

/-- C1 witness: the cascade evaluated at a concrete removable tag. -/
theorem purge_c1_rule_cascade_witness :
    (tagAction rmatchW argsW [] "tmp-1" = true ↔
      specTagDecision rmatchW argsW [] "tmp-1" = SpecDecision.remove) ∧
    (specTagDecision rmatchW argsW [] "tmp-1" = SpecDecision.remove →
      "tmp-1" ∈ (filter_images rmatchW [imgTagged] [] argsW).1 ∧
      imgTagged ∈ (filter_images rmatchW [imgTagged] [] argsW).2) :=
  purge_c1_rule_cascade rmatchW argsW [] "tmp-1" [imgTagged] imgTagged
    (by simp) (by decide)

/-- C4: per-tag evaluation is not per-image — an image with one tag
individually protected by `keep_pattern` and a sibling tag matching
`always_remove_pattern` still appears in the image removal set (and the
sibling tag in the tag removal set). -/
theorem purge_c4_kept_tag_does_not_protect_image
    (rmatch : String → String → Bool) (args : Args) (keep : List String)
    (images : List Image) (image : Image) (a b : String)
    (h1 : image ∈ images) (ha : a ∈ image.repoTags) (hb : b ∈ image.repoTags)
    (hkc : optStrTruthy args.keep_image_pattern = true)
    (hka : check_matches_pattern rmatch a (args.keep_image_pattern.getD "") = true)
    (hac : optStrTruthy args.always_remove_pattern = true)
    (hab : check_matches_pattern rmatch b (args.always_remove_pattern.getD "") = true)
    (hkb : check_matches_pattern rmatch b (args.keep_image_pattern.getD "") = false) :
    tagAction rmatch args keep a = false ∧
    b ∈ (filter_images rmatch images keep args).1 ∧
    image ∈ (filter_images rmatch images keep args).2 := by
  have hact : tagAction rmatch args keep b = true := by
    simp [tagAction, hkc, hkb, hac, hab]
  have hfired := filter_foldl_tag_fires rmatch args keep images ([], []) image b h1 hb hact
  refine ⟨by simp [tagAction, hkc, hka], ?_, ?_⟩
  · unfold filter_images
    exact hfired.1
  · unfold filter_images
    exact hfired.2

/-- C4 witness: a two-tag image, one tag kept by pattern, the sibling
removed, image still in the removal set. -/
theorem purge_c4_kept_tag_does_not_protect_image_witness :
    tagAction rmatchW argsW [] "keep-1" = false ∧
    "tmp-1" ∈ (filter_images rmatchW [imgTagged] [] argsW).1 ∧
    imgTagged ∈ (filter_images rmatchW [imgTagged] [] argsW).2 :=
  purge_c4_kept_tag_does_not_protect_image rmatchW argsW [] [imgTagged] imgTagged
    "keep-1" "tmp-1" (by simp) (by decide) (by decide) (by decide) (by decide)
    (by decide) (by decide) (by decide)

/-- C5: a dangling image (empty tag list) is in the image removal set iff
`remove_dangling` is truthy; the per-tag rules are bypassed for it. -/
theorem purge_c5_dangling_policy (rmatch : String → String → Bool) (args : Args)
    (keep : List String) (images : List Image) (image : Image)
    (h1 : image ∈ images) (hd : image.repoTags = []) :
    image ∈ (filter_images rmatch images keep args).2 ↔
      truthy args.remove_dangling = true := by
  unfold filter_images
  constructor
  · intro hmem
    rcases filter_foldl_mem_snd rmatch args keep images ([], []) image hmem with
      hin | ⟨_, hcase⟩
    · simp at hin
    · rcases hcase with ⟨_, hr⟩ | ⟨t, ht, _⟩
      · exact hr
      · rw [hd] at ht
        cases ht
  · intro hr
    exact (filter_foldl_dangling_fires rmatch args keep images ([], []) image h1 hd hr).2

/-- C5 witness: the dangling policy evaluated at a concrete dangling
image. -/
theorem purge_c5_dangling_policy_witness :
    imgDangling ∈ (filter_images rmatchW [imgDangling] [] argsW).2 ↔
      truthy argsW.remove_dangling = true :=
  purge_c5_dangling_policy rmatchW argsW [] [imgDangling] imgDangling
    (by simp) (by decide)

/-- C6: a tag matching a configured `keep_pattern` never enters the tag
removal set, whatever `always_remove_pattern`, `only_pattern`,
`remove_dangling` and the keep-set are — provided the tag string is not
also the docker id of some image (ids, not tags, are what the dangling
branch records). -/
theorem purge_c6_keep_pattern_protects (rmatch : String → String → Bool)
    (args : Args) (keep : List String) (images : List Image) (t : String)
    (hkc : optStrTruthy args.keep_image_pattern = true)
    (hkt : check_matches_pattern rmatch t (args.keep_image_pattern.getD "") = true)
    (hid : ∀ img ∈ images, img.id ≠ t) :
    t ∉ (filter_images rmatch images keep args).1 := by
  unfold filter_images
  intro hmem
  rcases filter_foldl_mem_fst rmatch args keep images ([], []) t hmem with
    hin | ⟨img, him, hcase⟩
  · simp at hin
  · rcases hcase with ⟨_, _, hid'⟩ | ⟨_, hact⟩
    · exact hid img him hid'
    · simp [tagAction, hkc, hkt] at hact

/-- C6 witness: concrete keep-matching tag with a hostile configuration
(`always_remove_pattern` also set, empty keep-set). -/
theorem purge_c6_keep_pattern_protects_witness :
    "keep-1" ∉ (filter_images rmatchW [imgTagged] [] argsW).1 :=
  purge_c6_keep_pattern_protects rmatchW argsW [] [imgTagged] "keep-1"
    (by decide) (by decide) (by decide)

/-- C10: any non-empty string value supplied to `--remove-dangling`
(including `"false"`) is truthy, so dangling images are removed; the
default with the flag absent is `True`, so they are removed then too. -/
theorem purge_c10_remove_dangling_truthiness (rmatch : String → String → Bool)
    (keep : List String) (images : List Image) (image : Image) (args : Args)
    (s : String) (hs : s ≠ "") (h1 : image ∈ images) (hd : image.repoTags = []) :
    image ∈ (filter_images rmatch images keep
      { args with remove_dangling := parse_remove_dangling (some s) }).2 ∧
    image ∈ (filter_images rmatch images keep
      { args with remove_dangling := parse_remove_dangling none }).2 := by
  have ht1 : truthy (parse_remove_dangling (some s)) = true := by
    simp [parse_remove_dangling, truthy, hs]
  have ht2 : truthy (parse_remove_dangling none) = true := by
    simp [parse_remove_dangling, truthy]
  constructor
  · unfold filter_images
    exact (filter_foldl_dangling_fires rmatch _ keep images ([], []) image h1 hd ht1).2
  · unfold filter_images
    exact (filter_foldl_dangling_fires rmatch _ keep images ([], []) image h1 hd ht2).2

/-- C10 witness: `--remove-dangling false` still removes a concrete
dangling image, as does omitting the flag. -/
theorem purge_c10_remove_dangling_truthiness_witness :
    imgDangling ∈ (filter_images rmatchW [imgDangling] []
      { argsW with remove_dangling := parse_remove_dangling (some "false") }).2 ∧
    imgDangling ∈ (filter_images rmatchW [imgDangling] []
      { argsW with remove_dangling := parse_remove_dangling none }).2 :=
  purge_c10_remove_dangling_truthiness rmatchW [] [imgDangling] imgDangling argsW
    "false" (by decide) (by simp) (by decide)

/-! ### Keep-set resolver -/

theorem foldl_addTag_mem (l init : List String) (x : String) :
    x ∈ l.foldl (fun acc t => addTag t acc) init ↔ x ∈ init ∨ x ∈ l := by
  induction l generalizing init with
  | nil => simp
  | cons t ts ih =>
    simp only [List.foldl_cons]
    rw [ih, mem_addTag_iff]
    simp only [List.mem_cons]
    tauto

theorem read_images_to_keep_mem (p : Subproc) (imgs : List String)
    (h : read_images_to_keep p = Except.ok imgs) (x : String) :
    x ∈ imgs ↔ ∃ raw ∈ p.rawStdout, clean_line raw = x := by
  unfold read_images_to_keep handle_subprocess at h
  by_cases hb : optIntTruthy (returncode_after_poll p) = true
  · rw [if_pos hb] at h
    cases h
  · rw [if_neg hb] at h
    have himgs : imgs =
        (p.rawStdout.map clean_line).foldl (fun s line => addTag line s) [] := by
      cases h
      rfl
    subst himgs
    rw [foldl_addTag_mem]
    simp [List.mem_map, eq_comm]

theorem keep_set_loop_mem (w : World) (branches : List String)
    (keep0 : List String) (tr0 : List Act) (keep : List String) (tr : List Act)
    (h : keep_set_loop w branches keep0 tr0 = Sum.inr (keep, tr)) (x : String) :
    x ∈ keep ↔ x ∈ keep0 ∨
      ∃ b ∈ branches, ∃ raw ∈ (w.discoverProc b).rawStdout, clean_line raw = x := by
  induction branches generalizing keep0 tr0 with
  | nil =>
    unfold keep_set_loop at h
    injection h with h
    injection h with h1 h2
    subst h1
    simp
  | cons b bs ih =>
    unfold keep_set_loop at h
    cases hc : handle_subprocess (w.checkoutProc b) with
    | error e =>
      rw [hc] at h
      cases h
    | ok v =>
      rw [hc] at h
      cases hr : read_images_to_keep (w.discoverProc b) with
      | error e =>
        rw [hr] at h
        cases h
      | ok found =>
        rw [hr] at h
        rw [ih _ _ h, foldl_addTag_mem, read_images_to_keep_mem _ _ hr x]
        constructor
        · rintro (⟨h0 | hf⟩ | ⟨b', hb', raw, hraw, hcl⟩)
          · exact Or.inl h0
          · exact Or.inr ⟨b, List.mem_cons_self _ _, hf⟩
          · exact Or.inr ⟨b', List.mem_cons_of_mem _ hb', raw, hraw, hcl⟩
        · rintro (h0 | ⟨b', hb', raw, hraw, hcl⟩)
          · exact Or.inl (Or.inl h0)
          · rcases List.mem_cons.mp hb' with he | hm
            · subst he
              exact Or.inl (Or.inr ⟨raw, hraw, hcl⟩)
            · exact Or.inr ⟨b', hm, raw, hraw, hcl⟩

/-- C2 counterexample: a discovery command that prints one empty line (a
raw `"\n"`).  The keep-set the code builds contains the empty tag `""`,
while the spec's deduplicated union of non-empty output lines is empty, so
the keep-set is not "exactly" that union and empty lines do contribute a
tag. -/
theorem purge_c2_empty_line_counterexample :
    keep_set_loop c2World ["main"] [] [] =
      Sum.inr ([""], [Act.checkout "main", Act.discover "main"]) ∧
    spec_keep_set ["main"] c2World.discoverProc = [] ∧
    "" ∈ [""] := by
  refine ⟨by decide, by decide, by decide⟩

/-- C2 amended: the keep-set of a successful run is the deduplicated union,
over all configured branches, of ALL standard-output lines of the discovery
command after trailing-newline stripping — the empty line contributes the
empty tag — and a tag discovered on any one branch is in the keep-set
regardless of what other branches produce. -/
theorem purge_c2_keep_set_union (w : World) (branches : List String)
    (keep : List String) (tr : List Act)
    (h : keep_set_loop w branches [] [] = Sum.inr (keep, tr)) (x : String) :
    x ∈ keep ↔
      ∃ b ∈ branches, ∃ raw ∈ (w.discoverProc b).rawStdout, clean_line raw = x := by
  rw [keep_set_loop_mem w branches [] [] keep tr h x]
  simp

/-- C2 witness: two branches with overlapping discovery output; the tag
`b`, printed only on branch `dev`, is in the keep-set. -/
theorem purge_c2_keep_set_union_witness :
    ("b" ∈ ["a", "b"] ↔
      ∃ br ∈ ["main", "dev"],
        ∃ raw ∈ (c2WorldW.discoverProc br).rawStdout, clean_line raw = "b") :=
  purge_c2_keep_set_union c2WorldW ["main", "dev"] ["a", "b"]
    [Act.checkout "main", Act.discover "main", Act.checkout "dev", Act.discover "dev"]
    (by decide) "b"

/-- C3: `_handle_subprocess` checks `p.returncode` after a single `poll()`
made immediately after `Popen`; for a child that exits non-zero but had not
yet terminated at that instant, `returncode` is still `None` (falsy), so no
exception is raised and the run continues — the abort fires exactly when
the child had already exited at the `poll()` with a non-zero status. -/
theorem purge_c3_nonzero_exit_undetected :
    (∀ p : Subproc, handle_subprocess p = Except.error () ↔
      p.exitedAtPoll = true ∧ p.exitCode ≠ 0) ∧
    c3Proc.exitCode ≠ 0 ∧
    handle_subprocess c3Proc =
      Except.ok (none, [], ["error: pathspec did not match any file known to git"]) := by
  refine ⟨fun p => ?_, by decide, by decide⟩
  unfold handle_subprocess optIntTruthy returncode_after_poll
  cases hp : p.exitedAtPoll with
  | false => simp [hp]
  | true =>
    by_cases hz : p.exitCode = 0
    · simp [hz]
    · simp [hz]

/-! ### Size estimator -/

theorem sizeStep_foldl_error (images : List Image) :
    images.foldl sizeStep (Except.error ()) = Except.error () := by
  induction images with
  | nil => rfl
  | cons i is ih =>
    simp only [List.foldl_cons]
    rw [show sizeStep (Except.error ()) i = Except.error () from rfl]
    exact ih

theorem sizeStep_foldl_ok (images : List Image) (n : Nat)
    (h : ∀ img ∈ images, img.size ≠ none) :
    images.foldl sizeStep (Except.ok n) =
      Except.ok (n + (images.map (fun i => i.size.getD 0)).sum) := by
  induction images generalizing n with
  | nil => simp
  | cons i is ih =>
    simp only [List.foldl_cons, List.map_cons, List.sum_cons]
    have hi : i.size ≠ none := h i (List.mem_cons_self _ _)
    cases hs : i.size with
    | none => exact absurd hs hi
    | some s =>
      rw [show sizeStep (Except.ok n) i = Except.ok (n + s) by simp [sizeStep, hs]]
      rw [ih _ (fun img him => h img (List.mem_cons_of_mem _ him))]
      simp [hs, Nat.add_assoc]

theorem sizeStep_foldl_missing (images : List Image) (n : Nat)
    (h : ∃ img ∈ images, img.size = none) :
    images.foldl sizeStep (Except.ok n) = Except.error () := by
  induction images generalizing n with
  | nil =>
    rcases h with ⟨_, h0, _⟩
    cases h0
  | cons i is ih =>
    simp only [List.foldl_cons]
    cases hs : i.size with
    | none =>
      rw [show sizeStep (Except.ok n) i = Except.error () by simp [sizeStep, hs]]
      exact sizeStep_foldl_error is
    | some s =>
      rcases h with ⟨img, him, hnone⟩
      rcases List.mem_cons.mp him with he | hm
      · subst he
        rw [hs] at hnone
        cases hnone
      · rw [show sizeStep (Except.ok n) i = Except.ok (n + s) by simp [sizeStep, hs]]
        exact ih _ ⟨img, hm, hnone⟩

/-- C8 counterexample: on an image whose `attrs` lack the `"Size"` key the
size estimator raises `KeyError` instead of treating the image as
contributing zero. -/
theorem purge_c8_missing_size_counterexample :
    estimate_total_size [imgNoSize] = Except.error () ∧
    estimate_total_size [imgNoSize] ≠ Except.ok 0 := by
  refine ⟨by decide, by decide⟩

/-- C8 amended: when every image of the removal set carries size metadata,
the estimator returns the sum of the declared sizes (it is a pure
function of its argument); an image with missing size metadata instead
makes it raise `KeyError`. -/
theorem purge_c8_size_sum (images : List Image) :
    ((∀ img ∈ images, img.size ≠ none) →
      estimate_total_size images =
        Except.ok ((images.map (fun i => i.size.getD 0)).sum)) ∧
    ((∃ img ∈ images, img.size = none) →
      estimate_total_size images = Except.error ()) := by
  constructor
  · intro h
    unfold estimate_total_size
    rw [sizeStep_foldl_ok images 0 h]
    simp
  · intro h
    unfold estimate_total_size
    exact sizeStep_foldl_missing images 0 h

/-- C8 witness: the estimator evaluated on concrete images, once with all
sizes present (sum 105) and once with one missing (raises). -/
theorem purge_c8_size_sum_witness :
    estimate_total_size [imgTagged, imgDangling] = Except.ok 105 ∧
    estimate_total_size [imgTagged, imgNoSize] = Except.error () :=
  ⟨((purge_c8_size_sum [imgTagged, imgDangling]).1 (by decide)).trans (by decide),
   (purge_c8_size_sum [imgTagged, imgNoSize]).2 ⟨imgNoSize, by decide, by decide⟩⟩

/-! ### Purge executor and main -/

theorem remove_images_by_tags_attempts (removeFails : String → Bool)
    (tags : List String) (t : String) (ht : t ∈ tags) :
    Act.attemptRemove t ∈ remove_images_by_tags removeFails tags := by
  unfold remove_images_by_tags
  refine List.mem_flatten.mpr
    ⟨[Act.attemptRemove t] ++
        (if removeFails t then [Act.logRemoveFailed t] else [Act.logRemoved t]),
      List.mem_map.mpr ⟨t, ht, rfl⟩, ?_⟩
  simp

theorem remove_images_by_tags_logs_failure (removeFails : String → Bool)
    (tags : List String) (t : String) (ht : t ∈ tags)
    (hf : removeFails t = true) :
    Act.logRemoveFailed t ∈ remove_images_by_tags removeFails tags := by
  unfold remove_images_by_tags
  refine List.mem_flatten.mpr
    ⟨[Act.attemptRemove t] ++
        (if removeFails t then [Act.logRemoveFailed t] else [Act.logRemoved t]),
      List.mem_map.mpr ⟨t, ht, rfl⟩, ?_⟩
  simp [hf]

/-- C7: when `git diff HEAD` reports uncommitted changes, `main` returns 1
with an empty action trace — no branch checkout, no removal attempt and no
prune ever happens in that run. -/
theorem purge_c7_dirty_repo_aborts (rmatch : String → String → Bool)
    (w : World) (images : List Image) (args : Args)
    (h : git_check_dirty w = some true) :
    mainModel rmatch w images args = RunResult.exited 1 [] := by
  unfold mainModel
  rw [h]

/-- C7 witness: a world with a dirty diff aborts a fully concrete run. -/
theorem purge_c7_dirty_repo_aborts_witness :
    mainModel rmatchW c7World [imgTagged] argsW = RunResult.exited 1 [] :=
  purge_c7_dirty_repo_aborts rmatchW c7World [imgTagged] argsW (by decide)

/-- C9: on a run that reaches the purge phase, every tag of the removal
set gets its own deletion attempt no matter which deletions fail (a
failure is logged and skipped), and the trace ends with the global prune,
regardless of how many deletions succeeded. -/
theorem purge_c9_best_effort_purge (rmatch : String → String → Bool)
    (w : World) (images : List Image) (args : Args) (keep : List String)
    (tr : List Act) (n : Nat)
    (hdirty : git_check_dirty w = some false)
    (hloop : keep_set_loop w (py_split args.keep_from_branches (Char.ofNat 44)) [] [] =
      Sum.inr (keep, tr))
    (hsize : estimate_total_size (filter_images rmatch images keep args).2 =
      Except.ok n) :
    mainModel rmatch w images args =
      RunResult.exited 0 (tr ++
        remove_images_by_tags w.removeFails (filter_images rmatch images keep args).1 ++
        [Act.prune]) ∧
    (∀ t ∈ (filter_images rmatch images keep args).1,
      Act.attemptRemove t ∈
        remove_images_by_tags w.removeFails (filter_images rmatch images keep args).1) ∧
    (∀ t ∈ (filter_images rmatch images keep args).1, w.removeFails t = true →
      Act.logRemoveFailed t ∈
        remove_images_by_tags w.removeFails (filter_images rmatch images keep args).1) ∧
    (tr ++ remove_images_by_tags w.removeFails (filter_images rmatch images keep args).1 ++
        [Act.prune]).getLast? = some Act.prune := by
  refine ⟨?_, fun t ht => remove_images_by_tags_attempts w.removeFails _ t ht,
    fun t ht hf => remove_images_by_tags_logs_failure w.removeFails _ t ht hf, ?_⟩
  · simp only [mainModel, hdirty, hloop, hsize]
  · exact List.getLast?_concat _

/-- C9 witness: a concrete run whose removal set is `{tmp-1}` and whose
store refuses to delete `tmp-1`; the tag is still attempted, the failure
logged, and the trace ends with the prune. -/
theorem purge_c9_best_effort_purge_witness :
    mainModel rmatchW c9World [imgTagged] argsW =
      RunResult.exited 0 ([Act.checkout "main", Act.discover "main"] ++
        remove_images_by_tags c9World.removeFails
          (filter_images rmatchW [imgTagged] ["keep-1"] argsW).1 ++ [Act.prune]) ∧
    Act.attemptRemove "tmp-1" ∈ remove_images_by_tags c9World.removeFails
      (filter_images rmatchW [imgTagged] ["keep-1"] argsW).1 ∧
    Act.logRemoveFailed "tmp-1" ∈ remove_images_by_tags c9World.removeFails
      (filter_images rmatchW [imgTagged] ["keep-1"] argsW).1 :=
  ⟨(purge_c9_best_effort_purge rmatchW c9World [imgTagged] argsW ["keep-1"]
      [Act.checkout "main", Act.discover "main"] 100
      (by decide) (by decide) (by decide)).1,
   (purge_c9_best_effort_purge rmatchW c9World [imgTagged] argsW ["keep-1"]
      [Act.checkout "main", Act.discover "main"] 100
      (by decide) (by decide) (by decide)).2.1 "tmp-1" (by decide),
   (purge_c9_best_effort_purge rmatchW c9World [imgTagged] argsW ["keep-1"]
      [Act.checkout "main", Act.discover "main"] 100
      (by decide) (by decide) (by decide)).2.2.1 "tmp-1" (by decide) (by decide)⟩
